import Mathlib

/-!
Verification of the ownership-based approval reconciler in
`reconcile/gitlab_owners.py`.

The Python module is shallowly embedded below.  Pure helpers become Lean
functions; the GitLab API calls (repository tree, blobs, changed paths,
comments, labels) are treated as caller-supplied snapshots, exactly the data
the Python code reads from them.  Python `datetime` values are modelled as
integers (only their total order is used), Python exceptions become
`Except PyError`, and Python dicts become insertion-ordered association
lists with unique keys (`dinsert` reproduces `d[k] = v`).
-/

/-- The character `\x7b` (left curly brace). -/
def lbrace : Char := Char.ofNat 0x7b

/-- The character `\x7d` (right curly brace). -/
def rbrace : Char := Char.ofNat 0x7d

/-- The backquote character `\x60`, used by the markdown fence. -/
def backquote : Char := Char.ofNat 0x60

/-- The single-quote character `\x27`, used by Python `repr` of strings. -/
def squote : Char := Char.ofNat 0x27

/-- `listStarts pre l` is true when `pre` is an initial segment of `l`. -/
def listStarts : List Char → List Char → Bool
  | [], _ => true
  | _ :: _, [] => false
  | a :: as, b :: bs => a == b && listStarts as bs

/-- Python `s.startswith(p)`: textual (code-point) prefix test. -/
def pyStartsWith (s p : String) : Bool :=
  listStarts p.toList s.toList

/-- Code-point lexicographic comparison of character lists, the order Python
uses to compare strings. -/
def listCharLe : List Char → List Char → Bool
  | [], _ => true
  | _ :: _, [] => false
  | a :: as, b :: bs => decide (a.toNat < b.toNat) || (a == b && listCharLe as bs)

/-- Python string comparison `a <= b` (code-point lexicographic). -/
def pyStrLe (a b : String) : Bool :=
  listCharLe a.toList b.toList

/-- The order on strings used by Python `sorted`, as a relation. -/
def pyLeRel (a b : String) : Prop :=
  pyStrLe a b = true

instance : DecidableRel pyLeRel :=
  fun a b => instDecidableEqBool (pyStrLe a b) true

/-- Python `sorted(set(l))` for a list of strings: duplicates removed, then
sorted in code-point order.  Used by `get_all_owners`/`get_closest_owners`
(gitlab_owners.py lines 43 and 62). -/
def sortedSet (l : List String) : List String :=
  List.insertionSort pyLeRel l.dedup

/-- Python dict assignment `d[k] = v`: if the key is present its value is
replaced in place, otherwise the pair is appended (insertion order). -/
def dinsert {α : Type} (m : List (String × α)) (k : String) (v : α) :
    List (String × α) :=
  if m.any (fun kv => kv.1 == k) then
    m.map (fun kv => if kv.1 == k then (k, v) else kv)
  else m ++ [(k, v)]

/-- The exceptions the module can raise while computing. -/
inductive PyError where
  /-- Python `KeyError` (raised by `get_all_owners`/`get_closest_owners`). -/
  | keyError
  /-- Python `TypeError` (subscripting a non-dict YAML document). -/
  | typeError
  /-- `yaml.YAMLError` (unparseable OWNERS file). -/
  | yamlError
  /-- `OwnerNotFoundError` defined in gitlab_owners.py line 89. -/
  | ownerNotFoundError
deriving DecidableEq, Repr

instance exceptDecEq {ε α : Type} [DecidableEq ε] [DecidableEq α] :
    DecidableEq (Except ε α) := fun a b =>
  match a, b with
  | Except.ok x, Except.ok y =>
    if h : x = y then isTrue (by rw [h])
    else isFalse (fun hc => h (Except.ok.inj hc))
  | Except.error x, Except.error y =>
    if h : x = y then isTrue (by rw [h])
    else isFalse (fun hc => h (Except.error.inj hc))
  | Except.ok _, Except.error _ => isFalse (fun hc => Except.noConfusion hc)
  | Except.error _, Except.ok _ => isFalse (fun hc => Except.noConfusion hc)

/-- The owners map built by `ProjectOwners._get_owners_map`: a Python dict
from owned directory path to the approvers list, in insertion order. -/
abbrev OwnersMap := List (String × List String)

/-- `ProjectOwners.get_all_owners` (gitlab_owners.py lines 31-43), the pairs
whose key is a textual prefix of `path`, in dict iteration order. -/
def matchedPairs (m : OwnersMap) (path : String) : OwnersMap :=
  m.filter (fun kv => pyStartsWith path kv.1)

/-- The owners accumulated by the loop of `get_all_owners`: every owner of
every matched pair (the Python code collects them into a set; we keep the
concatenation, whose set of elements is the same). -/
def matched_owners (m : OwnersMap) (path : String) : List String :=
  (matchedPairs m path).foldl (fun acc kv => acc ++ kv.2) []

/-- `ProjectOwners.get_all_owners` (gitlab_owners.py lines 31-43): union of
the owner sets of every key that is a textual prefix of `path`, returned as
`sorted(set(...))`; raises `KeyError` when the accumulated set is empty. -/
def get_all_owners (m : OwnersMap) (path : String) :
    Except PyError (List String) :=
  if (matched_owners m path).isEmpty then Except.error PyError.keyError
  else Except.ok (sortedSet (matched_owners m path))

/-- `ProjectOwners.get_closest_owners` (gitlab_owners.py lines 45-62):
collect the prefix-matching pairs; raise `KeyError` when there are none;
otherwise elect `max(candidates, key=len)` — Python `max` keeps the first
candidate and replaces it only on a strictly greater length — and return
`sorted(set(owners_map[elected]))`. -/
def get_closest_owners (m : OwnersMap) (path : String) :
    Except PyError (List String) :=
  match matchedPairs m path with
  | [] => Except.error PyError.keyError
  | c :: cs =>
    Except.ok (sortedSet
      (cs.foldl (fun best kv => if best.1.length < kv.1.length then kv else best)
        c).2)

/-- A merge-request comment as returned by
`gitlab.get_merge_request_comments`: author username, raw body, creation
time (timestamps are modelled as integers; only their order is used). -/
structure Comment where
  username : String
  body : String
  created_at : Int
deriving DecidableEq, Repr

/-- `MRApproval.get_lgtms` (gitlab_owners.py lines 127-146): usernames of all
comments whose body is exactly the string `/lgtm` and whose creation time is
not strictly before the top commit creation time. -/
def get_lgtms (comments : List Comment) (top_commit_created_at : Int) :
    List String :=
  (comments.filter (fun c =>
    c.body == "/lgtm" && !(decide (c.created_at < top_commit_created_at)))).map
    (fun c => c.username)

/-- An approval report: a Python dict from changed path to its remediation
message, in insertion order (gitlab_owners.py lines 159-172). -/
abbrev Report := List (String × String)

/-- Python `repr` escaping for one character inside quote character `q`.
Printable characters are kept; backslash, the quote, and the common control
characters are escaped; other C0 controls and DEL become a hex escape.
(Non-printable characters above `\x7f`, which Python would also escape, do
not occur in this module's data and are kept literal.) -/
def hexDigitL (n : Nat) : Char :=
  if n < 10 then Char.ofNat (48 + n) else Char.ofNat (87 + n)

def pyEscCharIn (q : Char) (c : Char) : String :=
  if c == '\\' then "\\\\"
  else if c == q then String.mk ['\\', q]
  else if c == '\n' then "\\n"
  else if c == '\r' then "\\r"
  else if c == '\t' then "\\t"
  else if c.toNat < 0x20 || c.toNat == 0x7f then
    "\\x" ++ String.mk [hexDigitL (c.toNat / 16), hexDigitL (c.toNat % 16)]
  else String.mk [c]

/-- Python `repr` of a string: single quotes, unless the string contains a
single quote and no double quote. -/
def pyReprStr (s : String) : String :=
  let q := if s.toList.contains squote && !(s.toList.contains '"') then '"'
           else squote
  String.mk [q] ++ String.join (s.toList.map (pyEscCharIn q)) ++ String.mk [q]

/-- Python `str` of a list of strings: `repr` of each element, joined with
a comma and a space, in square brackets.  This is how the f-string at
gitlab_owners.py lines 170-172 renders `closest_owners`. -/
def pyStrListOfStrings (l : List String) : String :=
  "[" ++ String.intercalate ", " (l.map pyReprStr) ++ "]"

/-- The report message for one unapproved change path (gitlab_owners.py
lines 170-172). -/
def approval_message (closest : List String) : String :=
  "one of " ++ pyStrListOfStrings closest ++ " needs to approve the change"

/-- One hexadecimal digit of `json.dumps` unicode escapes (lowercase). -/
def hex4Str (n : Nat) : String :=
  String.mk [hexDigitL (n / 4096 % 16), hexDigitL (n / 256 % 16),
    hexDigitL (n / 16 % 16), hexDigitL (n % 16)]

/-- `json.dumps` escaping of one character (default `ensure_ascii=True`). -/
def jsonEscChar (c : Char) : String :=
  if c == '"' then "\\\""
  else if c == '\\' then "\\\\"
  else if c == '\n' then "\\n"
  else if c == '\r' then "\\r"
  else if c == '\t' then "\\t"
  else if c.toNat == 8 then "\\b"
  else if c.toNat == 12 then "\\f"
  else if 0x20 ≤ c.toNat && c.toNat ≤ 0x7e then String.mk [c]
  else if c.toNat < 0x10000 then "\\u" ++ hex4Str c.toNat
  else
    "\\u" ++ hex4Str (0xd800 + (c.toNat - 0x10000) / 0x400) ++
      "\\u" ++ hex4Str (0xdc00 + (c.toNat - 0x10000) % 0x400)

/-- A JSON string literal for `s`. -/
def jsonQuote (s : String) : String :=
  "\"" ++ String.join (s.toList.map jsonEscChar) ++ "\""

/-- `json.dumps(report, indent=4)` (gitlab_owners.py line 207) for a dict of
strings: entries in dict (insertion) order — `sort_keys` is NOT passed —
each on its own line indented by four spaces, separated by a comma. -/
def json_dumps_indent4 (r : Report) : String :=
  if r.isEmpty then String.mk [lbrace, rbrace]
  else
    String.mk [lbrace] ++ "\n" ++
      String.intercalate ",\n"
        (r.map (fun kv => "    " ++ jsonQuote kv.1 ++ ": " ++ jsonQuote kv.2)) ++
      "\n" ++ String.mk [rbrace]

/-- The markdown-fenced report comment body (gitlab_owners.py lines 207-208). -/
def markdown_json_report (r : Report) : String :=
  "```\n" ++ json_dumps_indent4 r ++ "\n```"

/-- Python `comment['body'].lstrip(fence).rstrip(fence)` where the fence
string contains only backquotes and a newline: every leading and trailing
character belonging to the set `backquote, newline` is removed
(gitlab_owners.py line 194). -/
def stripFence (s : String) : String :=
  String.mk
    (((s.toList.dropWhile (fun c => c == backquote || c == '\n')).reverse.dropWhile
      (fun c => c == backquote || c == '\n')).reverse)

/-- JSON insignificant whitespace. -/
def jsonWs (c : Char) : Bool :=
  c == ' ' || c == '\t' || c == '\n' || c == '\r'

/-- Hexadecimal digit value, upper or lower case. -/
def hexVal (c : Char) : Option Nat :=
  if 48 ≤ c.toNat ∧ c.toNat ≤ 57 then some (c.toNat - 48)
  else if 97 ≤ c.toNat ∧ c.toNat ≤ 102 then some (c.toNat - 87)
  else if 65 ≤ c.toNat ∧ c.toNat ≤ 70 then some (c.toNat - 55)
  else none

/-- Four hexadecimal digits, as in a JSON `\uXXXX` escape. -/
def hex4Val : List Char → Option (Nat × List Char)
  | a :: b :: c :: d :: rest =>
    match hexVal a, hexVal b, hexVal c, hexVal d with
    | some x, some y, some z, some w =>
      some (4096 * x + 256 * y + 16 * z + w, rest)
    | _, _, _, _ => none
  | _ => none

/-- JSON string-literal body parser (after the opening quote), fuelled by the
input length.  Mirrors `json.loads` string handling: the standard escapes,
`\uXXXX` with surrogate pairs, and a hard error on raw control characters.
(A lone surrogate, which CPython would keep, is rejected instead; such
bodies never parse back equal to a report, so the observable behaviour of
the comparison in `get_approval_status` is unchanged.) -/
def parseJStrAux : Nat → List Char → List Char → Option (String × List Char)
  | 0, _, _ => none
  | _ + 1, _, [] => none
  | fuel + 1, acc, c :: rest =>
    if c == '"' then some (String.mk acc.reverse, rest)
    else if c == '\\' then
      match rest with
      | [] => none
      | e :: rest2 =>
        if e == '"' then parseJStrAux fuel ('"' :: acc) rest2
        else if e == '\\' then parseJStrAux fuel ('\\' :: acc) rest2
        else if e == '/' then parseJStrAux fuel ('/' :: acc) rest2
        else if e == 'b' then parseJStrAux fuel (Char.ofNat 8 :: acc) rest2
        else if e == 'f' then parseJStrAux fuel (Char.ofNat 12 :: acc) rest2
        else if e == 'n' then parseJStrAux fuel ('\n' :: acc) rest2
        else if e == 'r' then parseJStrAux fuel ('\r' :: acc) rest2
        else if e == 't' then parseJStrAux fuel ('\t' :: acc) rest2
        else if e == 'u' then
          match hex4Val rest2 with
          | none => none
          | some (n, rest3) =>
            if 0xd800 ≤ n ∧ n ≤ 0xdbff then
              match rest3 with
              | b1 :: b2 :: rest4 =>
                if b1 == '\\' && b2 == 'u' then
                  match hex4Val rest4 with
                  | some (n2, rest5) =>
                    if 0xdc00 ≤ n2 ∧ n2 ≤ 0xdfff then
                      parseJStrAux fuel
                        (Char.ofNat (0x10000 + (n - 0xd800) * 0x400 + (n2 - 0xdc00)) :: acc)
                        rest5
                    else none
                  | none => none
                else none
              | _ => none
            else if 0xdc00 ≤ n ∧ n ≤ 0xdfff then none
            else parseJStrAux fuel (Char.ofNat n :: acc) rest3
        else none
    else if c.toNat < 0x20 then none
    else parseJStrAux fuel (c :: acc) rest

/-- Parse a JSON string literal positioned after its opening quote. -/
def parseJStr (cs : List Char) : Option (String × List Char) :=
  parseJStrAux (cs.length + 1) [] cs

/-- Member list of a JSON object of strings, fuelled; positioned at the
first member (whitespace before it already skipped).  Duplicate keys keep
the last value, as `json.loads` does. -/
def parseMembersAux : Nat → Report → List Char → Option (Report × List Char)
  | 0, _, _ => none
  | fuel + 1, acc, cs =>
    match cs.dropWhile jsonWs with
    | [] => none
    | c :: rest =>
      if c == '"' then
        match parseJStr rest with
        | none => none
        | some (k, rest2) =>
          match rest2.dropWhile jsonWs with
          | ':' :: rest4 =>
            match rest4.dropWhile jsonWs with
            | [] => none
            | q :: rest6 =>
              if q == '"' then
                match parseJStr rest6 with
                | none => none
                | some (v, rest7) =>
                  match rest7.dropWhile jsonWs with
                  | ',' :: rest9 => parseMembersAux fuel (dinsert acc k v) rest9
                  | c2 :: rest9 =>
                    if c2 == rbrace then some (dinsert acc k v, rest9) else none
                  | [] => none
              else none
          | _ => none
      else none

/-- `json.loads` restricted to JSON objects whose members are all strings —
the only JSON values that can compare equal to a report dict.  Any other
input (malformed JSON, or a JSON value of a different shape, which could
never equal the report) yields `none`; in `get_approval_status` both cases
lead to the comment being skipped, exactly as in the Python code, where the
former raises `json.decoder.JSONDecodeError` (caught at line 202) and the
latter fails the `body == report` test at line 200. -/
def parseReportJson (s : String) : Option Report :=
  match s.toList.dropWhile jsonWs with
  | [] => none
  | c :: rest =>
    if c == lbrace then
      match rest.dropWhile jsonWs with
      | [] => none
      | c2 :: rest2 =>
        if c2 == rbrace then
          if (rest2.dropWhile jsonWs).isEmpty then some [] else none
        else
          match parseMembersAux (s.length + 1) [] (c2 :: rest2) with
          | some (rep, rest3) =>
            if (rest3.dropWhile jsonWs).isEmpty then some rep else none
          | none => none
    else none

/-- Decoding of a prior comment body: strip the markdown fence, then parse
the JSON report (gitlab_owners.py lines 194-197). -/
def decodeBody (s : String) : Option Report :=
  parseReportJson (stripFence s)

/-- Python dict equality `body == report` (gitlab_owners.py line 200) for
insertion-ordered association lists with unique keys (the invariant every
Python dict maintains): same number of entries, and every entry of the
first is present in the second. -/
def py_dict_eq (m1 m2 : Report) : Bool :=
  m1.length == m2.length &&
  m1.all (fun kv =>
    match m2.find? (fun kv2 => kv2.1 == kv.1) with
    | some kv2 => kv2.2 == kv.2
    | none => false)

/-- The per-path resolution record stored by `get_change_owners_map`
(gitlab_owners.py lines 118-122). -/
structure ChangeOwners where
  owners : List String
  closest_owners : List String
deriving DecidableEq, Repr

/-- Monadic map over `Except`, mirroring the Python loop at gitlab_owners.py
lines 116-124: the first raised exception aborts the whole loop. -/
def mapExc {α β ε : Type} (f : α → Except ε β) : List α → Except ε (List β)
  | [] => Except.ok []
  | a :: as =>
    match f a with
    | Except.error e => Except.error e
    | Except.ok b =>
      match mapExc f as with
      | Except.error e => Except.error e
      | Except.ok bs => Except.ok (b :: bs)

/-- The loop body of `MRApproval.get_change_owners_map` for one path
(gitlab_owners.py lines 117-122). -/
def change_owner_entry (m : OwnersMap) (path : String) :
    Except PyError (String × ChangeOwners) :=
  match get_all_owners m path with
  | Except.error e => Except.error e
  | Except.ok os =>
    match get_closest_owners m path with
    | Except.error e => Except.error e
    | Except.ok cs => Except.ok (path, ChangeOwners.mk os cs)

/-- `MRApproval.get_change_owners_map` (gitlab_owners.py lines 109-125):
resolve every changed path; a `KeyError` from either resolution is re-raised
as `OwnerNotFoundError`, aborting the whole map. -/
def get_change_owners_map (m : OwnersMap) (paths : List String) :
    Except PyError (List (String × ChangeOwners)) :=
  match mapExc (change_owner_entry m) paths with
  | Except.error _ => Except.error PyError.ownerNotFoundError
  | Except.ok l => Except.ok l

/-- The `change_approved` flag of the loop at gitlab_owners.py lines
163-166: true when any owner of the change appears among the lgtm voters. -/
def change_approved (co : ChangeOwners) (lgtms : List String) : Bool :=
  co.owners.any (fun owner => lgtms.contains owner)

/-- The report built by the loop at gitlab_owners.py lines 162-172: every
change that is not approved contributes an entry naming its closest
owners. -/
def build_report (com : List (String × ChangeOwners)) (lgtms : List String) :
    Report :=
  com.foldl (fun rep pco =>
    if change_approved pco.2 lgtms then rep
    else dinsert rep pco.1 (approval_message pco.2.closest_owners)) []

/-- The comment scan at gitlab_owners.py lines 181-203: is there a comment
authored by the bot user, not older than the top commit, whose body decodes
to a dict equal to `report`?  (The Python loop returns on the first such
comment; existence is all that matters for the result.) -/
def report_already_commented (comments : List Comment) (bot_username : String)
    (top_commit_created_at : Int) (report : Report) : Bool :=
  comments.any (fun c =>
    c.username == bot_username &&
    !(decide (c.created_at < top_commit_created_at)) &&
    (match decodeBody c.body with
     | some body => py_dict_eq body report
     | none => false))

/-- The result of `MRApproval.get_approval_status`: the Python dict
`\x7b'approved': ..., 'report': ...\x7d`. -/
structure ApprovalStatus where
  approved : Bool
  report : Option String
deriving DecidableEq, Repr

/-- The tail of `get_approval_status` (gitlab_owners.py lines 174-210) once
the report has been computed: empty report means approved; a matching prior
bot comment suppresses the report; otherwise the markdown-fenced JSON report
is returned. -/
def approval_of_report (comments : List Comment) (bot_username : String)
    (top_commit_created_at : Int) (report : Report) : ApprovalStatus :=
  if report.isEmpty then ApprovalStatus.mk true none
  else if report_already_commented comments bot_username top_commit_created_at
      report then
    ApprovalStatus.mk false none
  else ApprovalStatus.mk false (some (markdown_json_report report))

/-- `MRApproval.get_approval_status` (gitlab_owners.py lines 148-210).
`OwnerNotFoundError` (the only exception `get_change_owners_map` raises) is
caught and yields the initial status: not approved, no report. -/
def get_approval_status (m : OwnersMap) (paths : List String)
    (comments : List Comment) (bot_username : String)
    (top_commit_created_at : Int) : ApprovalStatus :=
  match get_change_owners_map m paths with
  | Except.error _ => ApprovalStatus.mk false none
  | Except.ok com =>
    approval_of_report comments bot_username top_commit_created_at
      (build_report com (get_lgtms comments top_commit_created_at))

/-- `APPROVAL_LABEL` (gitlab_owners.py line 17). -/
def APPROVAL_LABEL : String := "approved"

/-- `MRApproval.has_approval_label` (gitlab_owners.py lines 212-214). -/
def has_approval_label (labels : List String) : Bool :=
  labels.contains APPROVAL_LABEL

/-- A side effect the `run` loop can perform on a merge request. -/
inductive Directive where
  | addLabel
  | removeLabel
  | postComment (body : String)
deriving DecidableEq, Repr

/-- The side effects performed by the per-merge-request body of `run`
(gitlab_owners.py lines 235-266) when `dry_run` is false, in order:
if approved, add the label unless it is already present; otherwise remove
the label when present (lines 250-256), and when a report is available
remove the label again and post the report comment (lines 258-266). -/
def run_directives (status : ApprovalStatus) (hasLabel : Bool) :
    List Directive :=
  if status.approved then
    if hasLabel then [] else [Directive.addLabel]
  else
    (if hasLabel then [Directive.removeLabel] else []) ++
    (match status.report with
     | some body => [Directive.removeLabel, Directive.postComment body]
     | none => [])

/-- The whole per-merge-request evaluation: the approval status computed by
`MRApproval.get_approval_status` and the side effects `run` performs on its
basis. -/
def evaluate (m : OwnersMap) (paths : List String) (comments : List Comment)
    (bot_username : String) (top_commit_created_at : Int)
    (labels : List String) : ApprovalStatus × List Directive :=
  let status := get_approval_status m paths comments bot_username
    top_commit_created_at
  (status, run_directives status (has_approval_label labels))

/-- A YAML document as read from an OWNERS blob, after base64 decoding and
`yaml.safe_load`.  `ymap` is a YAML mapping (modelled with string-list
values, the only shape this integration stores); `yother` is any
non-mapping document (a list, a scalar, or null), on which the Python
subscription `...['approvers']` raises `TypeError`. -/
inductive YDoc where
  | ymap (entries : List (String × List String))
  | yother
deriving DecidableEq, Repr

/-- One entry of `gitlab.get_repository_tree`, with the blob content already
fetched and parsed: `content = none` models a blob on which
`yaml.safe_load` raises `yaml.YAMLError`. -/
structure TreeItem where
  name : String
  typ : String
  path : String
  content : Option YDoc
deriving DecidableEq, Repr

/-- `str(pathlib.Path(p).parent)` for the relative slash-separated paths a
repository tree yields: drop the last component; a path with a single
component has parent `"."`. -/
def splitSlash : List Char → List (List Char)
  | [] => [[]]
  | c :: cs =>
    if c == '/' then [] :: splitSlash cs
    else
      match splitSlash cs with
      | [] => [[c]]
      | g :: gs => (c :: g) :: gs

def parentDir (p : String) : String :=
  let comps := ((splitSlash p.toList).filter (fun g => !g.isEmpty)).map String.mk
  if comps.length ≤ 1 then "."
  else String.intercalate "/" comps.dropLast

/-- `ProjectOwners._get_owners_map` (gitlab_owners.py lines 64-86) over the
already-fetched tree: skip entries not named `OWNERS` or not blobs; an
unparseable blob raises `yaml.YAMLError` and a non-mapping document raises
`TypeError`, both uncaught; a mapping without an `approvers` key raises
`KeyError`, which IS caught — the declaration is logged and skipped. -/
def get_owners_map_aux (acc : OwnersMap) :
    List TreeItem → Except PyError OwnersMap
  | [] => Except.ok acc
  | item :: rest =>
    if item.name != "OWNERS" then get_owners_map_aux acc rest
    else if item.typ != "blob" then get_owners_map_aux acc rest
    else
      match item.content with
      | none => Except.error PyError.yamlError
      | some YDoc.yother => Except.error PyError.typeError
      | some (YDoc.ymap entries) =>
        match entries.find? (fun kv => kv.1 == "approvers") with
        | none => get_owners_map_aux acc rest
        | some kv =>
          get_owners_map_aux (dinsert acc (parentDir item.path) kv.2) rest

def get_owners_map (tree : List TreeItem) : Except PyError OwnersMap :=
  get_owners_map_aux [] tree

/-- Does the report dict contain an entry for path `p`? -/
def report_has_path (rep : Report) (p : String) : Bool :=
  rep.any (fun kv => kv.1 == p)

/-! ### Concrete example values used by witnesses and counterexamples -/

/-- An owners map with a single entry: directory `a` owned by alice. -/
def exMap : OwnersMap := [("a", ["alice"])]

/-- The report the engine computes for `exMap` and changed path `a/f` with
no qualifying votes. -/
def exReport : Report := [("a/f", approval_message ["alice"])]

/-- The bot comment body carrying `exReport`. -/
def exBody : String := markdown_json_report exReport

/-- A bot comment carrying `exReport`, created after the top commit. -/
def exComment : Comment := Comment.mk "bot" exBody 5

/-- An owners map with two directories and distinct owners. -/
def exMap2 : OwnersMap := [("a", ["o1"]), ("b", ["o2"])]

/-- The report for `exMap2` with changed paths `a/f, b/f` (in that order). -/
def exR1 : Report :=
  [("a/f", approval_message ["o1"]), ("b/f", approval_message ["o2"])]

/-- The same entries in the opposite insertion order. -/
def exR2 : Report :=
  [("b/f", approval_message ["o2"]), ("a/f", approval_message ["o1"])]

/-- A well-formed OWNERS tree entry. -/
def exGoodItem : TreeItem :=
  TreeItem.mk "OWNERS" "blob" "d/OWNERS"
    (some (YDoc.ymap [("approvers", ["alice"])]))

/-- An OWNERS file that is a mapping but has no `approvers` key. -/
def exNoApproversItem : TreeItem :=
  TreeItem.mk "OWNERS" "blob" "bad/OWNERS"
    (some (YDoc.ymap [("owners", ["bob"])]))

/-- An OWNERS file whose document is not a mapping (e.g. a YAML list). -/
def exListItem : TreeItem :=
  TreeItem.mk "OWNERS" "blob" "lst/OWNERS" (some YDoc.yother)

/-- An OWNERS file that does not parse as YAML at all. -/
def exUnparseableItem : TreeItem :=
  TreeItem.mk "OWNERS" "blob" "junk/OWNERS" none


/-! ### General helper lemmas -/

theorem charToNat_inj {a b : Char} (h : a.toNat = b.toNat) : a = b := by
  apply Char.eq_of_val_eq
  apply UInt32.eq_of_toBitVec_eq
  apply BitVec.eq_of_toNat_eq
  exact h

theorem listCharLe_total : ∀ x y : List Char,
    listCharLe x y = true ∨ listCharLe y x = true := by
  intro x
  induction x with
  | nil => intro y; left; rfl
  | cons a as ih =>
    intro y
    cases y with
    | nil => right; rfl
    | cons b bs =>
      simp only [listCharLe, Bool.or_eq_true, Bool.and_eq_true, decide_eq_true_eq,
        beq_iff_eq]
      rcases Nat.lt_trichotomy a.toNat b.toNat with h | h | h
      · left; left; exact h
      · have hab : a = b := charToNat_inj h
        subst hab
        rcases ih bs with h2 | h2
        · left; right; exact ⟨rfl, h2⟩
        · right; right; exact ⟨rfl, h2⟩
      · right; left; exact h

theorem listCharLe_trans : ∀ x y z : List Char, listCharLe x y = true →
    listCharLe y z = true → listCharLe x z = true := by
  intro x
  induction x with
  | nil => intro y z _ _; rfl
  | cons a as ih =>
    intro y z hxy hyz
    cases y with
    | nil => simp [listCharLe] at hxy
    | cons b bs =>
      cases z with
      | nil => simp [listCharLe] at hyz
      | cons c cs =>
        simp only [listCharLe, Bool.or_eq_true, Bool.and_eq_true, decide_eq_true_eq,
          beq_iff_eq] at hxy hyz ⊢
        rcases hxy with h1 | ⟨hab, h1⟩
        · rcases hyz with h2 | ⟨hbc, h2⟩
          · left; exact Nat.lt_trans h1 h2
          · subst hbc; left; exact h1
        · subst hab
          rcases hyz with h2 | ⟨hbc, h2⟩
          · left; exact h2
          · subst hbc; right; exact ⟨rfl, ih bs cs h1 h2⟩

instance : IsTotal String pyLeRel :=
  ⟨fun a b => listCharLe_total a.toList b.toList⟩

instance : IsTrans String pyLeRel :=
  ⟨fun a b c => listCharLe_trans a.toList b.toList c.toList⟩

theorem filter_insert_false {α : Type} (p : α → Bool) (l1 l2 : List α) (c : α)
    (h : p c = false) : (l1 ++ c :: l2).filter p = (l1 ++ l2).filter p := by
  simp [List.filter_append, List.filter_cons, h]

theorem any_insert_false {α : Type} (p : α → Bool) (l1 l2 : List α) (c : α)
    (h : p c = false) : (l1 ++ c :: l2).any p = (l1 ++ l2).any p := by
  simp [List.any_append, List.any_cons, h]

theorem sortedSet_mem (l : List String) (x : String) :
    x ∈ sortedSet l ↔ x ∈ l := by
  unfold sortedSet
  rw [(List.perm_insertionSort pyLeRel l.dedup).mem_iff]
  exact List.mem_dedup

theorem sortedSet_sorted (l : List String) :
    List.Sorted pyLeRel (sortedSet l) :=
  List.sorted_insertionSort pyLeRel l.dedup

theorem sortedSet_nodup (l : List String) : (sortedSet l).Nodup :=
  ((List.perm_insertionSort pyLeRel l.dedup).nodup_iff).mpr (List.nodup_dedup l)

theorem foldl_append_mem (x : String) :
    ∀ (l : OwnersMap) (acc : List String),
    x ∈ l.foldl (fun acc kv => acc ++ kv.2) acc ↔
      (x ∈ acc ∨ ∃ kv ∈ l, x ∈ kv.2) := by
  intro l
  induction l with
  | nil => intro acc; simp
  | cons hd tl ih =>
    intro acc
    simp only [List.foldl_cons]
    rw [ih]
    simp only [List.mem_append, List.mem_cons]
    constructor
    · rintro ((hx | hx) | ⟨kv, hkv, hx⟩)
      · exact Or.inl hx
      · exact Or.inr ⟨hd, Or.inl rfl, hx⟩
      · exact Or.inr ⟨kv, Or.inr hkv, hx⟩
    · rintro (hx | ⟨kv, hkv | hkv, hx⟩)
      · exact Or.inl (Or.inl hx)
      · subst hkv; exact Or.inl (Or.inr hx)
      · exact Or.inr ⟨kv, hkv, hx⟩

theorem matched_owners_mem (m : OwnersMap) (path : String) (x : String) :
    x ∈ matched_owners m path ↔
      ∃ kv ∈ m, pyStartsWith path kv.1 = true ∧ x ∈ kv.2 := by
  unfold matched_owners matchedPairs
  rw [foldl_append_mem]
  constructor
  · rintro (hx | ⟨kv, hkv, hx⟩)
    · cases hx
    · obtain ⟨hm, hp⟩ := List.mem_filter.mp hkv
      exact ⟨kv, hm, hp, hx⟩
  · rintro ⟨kv, hm, hp, hx⟩
    exact Or.inr ⟨kv, List.mem_filter.mpr ⟨hm, hp⟩, hx⟩

theorem get_all_owners_ok (m : OwnersMap) (path : String) (res : List String)
    (h : get_all_owners m path = Except.ok res) :
    res = sortedSet (matched_owners m path) := by
  unfold get_all_owners at h
  by_cases he : (matched_owners m path).isEmpty
  · rw [if_pos he] at h; cases h
  · rw [if_neg he] at h; exact (Except.ok.inj h).symm

theorem foldl_elect_mem_max :
    ∀ (cs : OwnersMap) (c : String × List String),
    (cs.foldl (fun best kv => if best.1.length < kv.1.length then kv else best)
        c) ∈ c :: cs ∧
    ∀ kv ∈ c :: cs, kv.1.length ≤
      (cs.foldl (fun best kv => if best.1.length < kv.1.length then kv else best)
        c).1.length := by
  intro cs
  induction cs with
  | nil =>
    intro c
    refine ⟨List.mem_singleton.mpr rfl, ?_⟩
    intro kv hkv
    rw [List.mem_singleton.mp hkv]
    exact Nat.le_refl _
  | cons hd tl ih =>
    intro c
    simp only [List.foldl_cons]
    by_cases h : c.1.length < hd.1.length
    · rw [if_pos h]
      obtain ⟨hmem, hmax⟩ := ih hd
      refine ⟨?_, ?_⟩
      · rcases List.mem_cons.mp hmem with h1 | h1
        · rw [h1]; exact List.mem_cons_of_mem c (List.mem_cons_self hd tl)
        · exact List.mem_cons_of_mem c (List.mem_cons_of_mem hd h1)
      · intro kv hkv
        rcases List.mem_cons.mp hkv with h2 | h2
        · rw [h2]
          exact Nat.le_trans (Nat.le_of_lt h) (hmax hd (List.mem_cons_self hd tl))
        · exact hmax kv h2
    · rw [if_neg h]
      obtain ⟨hmem, hmax⟩ := ih c
      refine ⟨?_, ?_⟩
      · rcases List.mem_cons.mp hmem with h1 | h1
        · rw [h1]; exact List.mem_cons_self c (hd :: tl)
        · exact List.mem_cons_of_mem c (List.mem_cons_of_mem hd h1)
      · intro kv hkv
        rcases List.mem_cons.mp hkv with h2 | h2
        · rw [h2]; exact hmax c (List.mem_cons_self c tl)
        · rcases List.mem_cons.mp h2 with h3 | h3
          · rw [h3]
            exact Nat.le_trans (Nat.le_of_not_lt h) (hmax c (List.mem_cons_self c tl))
          · exact hmax kv (List.mem_cons_of_mem c h3)

theorem get_closest_owners_ok (m : OwnersMap) (path : String)
    (res : List String) (h : get_closest_owners m path = Except.ok res) :
    ∃ kv, kv ∈ matchedPairs m path ∧ res = sortedSet kv.2 ∧
      ∀ kv2 ∈ matchedPairs m path, kv2.1.length ≤ kv.1.length := by
  unfold get_closest_owners at h
  cases hf : matchedPairs m path with
  | nil => rw [hf] at h; cases h
  | cons c cs =>
    rw [hf] at h
    obtain ⟨hmem, hmax⟩ := foldl_elect_mem_max cs c
    refine ⟨cs.foldl
      (fun best kv => if best.1.length < kv.1.length then kv else best) c,
      ?_, ?_, ?_⟩
    · exact hmem
    · exact (Except.ok.inj h).symm
    · intro kv2 hkv2
      exact hmax kv2 hkv2

theorem dinsert_has_path (rep : Report) (k v p : String) :
    report_has_path (dinsert rep k v) p = true ↔
      (report_has_path rep p = true ∨ k = p) := by
  unfold dinsert report_has_path
  by_cases h : rep.any (fun kv => kv.1 == k) = true
  · rw [if_pos h]
    simp only [List.any_map, List.any_eq_true, Function.comp] at h ⊢
    constructor
    · rintro ⟨kv, hkv, hp⟩
      by_cases hk : (kv.1 == k) = true
      · rw [if_pos hk] at hp
        exact Or.inr (eq_of_beq hp)
      · rw [if_neg hk] at hp
        exact Or.inl ⟨kv, hkv, hp⟩
    · rintro (⟨kv, hkv, hp⟩ | rfl)
      · by_cases hk : (kv.1 == k) = true
        · refine ⟨kv, hkv, ?_⟩
          rw [if_pos hk]
          have h1 : kv.1 = k := eq_of_beq hk
          have h2 : kv.1 = p := eq_of_beq hp
          exact beq_iff_eq.mpr (h1 ▸ h2)
        · exact ⟨kv, hkv, by rw [if_neg hk]; exact hp⟩
      · obtain ⟨kv, hkv, hk⟩ := h
        exact ⟨kv, hkv, by rw [if_pos hk]; exact beq_self_eq_true k⟩
  · rw [if_neg h]
    simp only [List.any_append, List.any_cons, List.any_nil, Bool.or_false,
      Bool.or_eq_true, beq_iff_eq]

theorem build_report_foldl_has_path (lgtms : List String) :
    ∀ (com : List (String × ChangeOwners)) (acc : Report) (p : String),
    report_has_path (com.foldl (fun rep pco =>
      if change_approved pco.2 lgtms then rep
      else dinsert rep pco.1 (approval_message pco.2.closest_owners)) acc)
      p = true ↔
    (report_has_path acc p = true ∨
      ∃ co, (p, co) ∈ com ∧ change_approved co lgtms = false) := by
  intro com
  induction com with
  | nil => intro acc p; simp
  | cons hd tl ih =>
    intro acc p
    simp only [List.foldl_cons]
    by_cases h : change_approved hd.2 lgtms = true
    · rw [if_pos h, ih]
      constructor
      · rintro (ha | ⟨co, hco, hap⟩)
        · exact Or.inl ha
        · exact Or.inr ⟨co, List.mem_cons_of_mem hd hco, hap⟩
      · rintro (ha | ⟨co, hco, hap⟩)
        · exact Or.inl ha
        · rcases List.mem_cons.mp hco with heq | hmem
          · exfalso
            have hco2 : co = hd.2 := congrArg Prod.snd heq
            rw [hco2, h] at hap
            cases hap
          · exact Or.inr ⟨co, hmem, hap⟩
    · have hb : change_approved hd.2 lgtms = false := by
        cases hcb : change_approved hd.2 lgtms
        · rfl
        · exact absurd hcb h
      rw [if_neg h, ih, dinsert_has_path]
      constructor
      · rintro ((ha | hkp) | ⟨co, hco, hap⟩)
        · exact Or.inl ha
        · refine Or.inr ⟨hd.2, ?_, hb⟩
          have : (p, hd.2) = hd := by
            rw [← hkp]
          rw [this]
          exact List.mem_cons_self hd tl
        · exact Or.inr ⟨co, List.mem_cons_of_mem hd hco, hap⟩
      · rintro (ha | ⟨co, hco, hap⟩)
        · exact Or.inl (Or.inl ha)
        · rcases List.mem_cons.mp hco with heq | hmem
          · have hkp : hd.1 = p := (congrArg Prod.fst heq).symm
            exact Or.inl (Or.inr hkp)
          · exact Or.inr ⟨co, hmem, hap⟩

theorem mapExc_ok_mem {α β ε : Type} (f : α → Except ε β) :
    ∀ (as : List α) (bs : List β), mapExc f as = Except.ok bs →
      ∀ b ∈ bs, ∃ a ∈ as, f a = Except.ok b := by
  intro as
  induction as with
  | nil =>
    intro bs h b hb
    unfold mapExc at h
    injection h with h1
    subst h1
    cases hb
  | cons a as ih =>
    intro bs h b hb
    unfold mapExc at h
    cases hfa : f a with
    | error e => rw [hfa] at h; cases h
    | ok b0 =>
      rw [hfa] at h
      cases hrest : mapExc f as with
      | error e => rw [hrest] at h; cases h
      | ok bs0 =>
        rw [hrest] at h
        injection h with h1
        subst h1
        rcases List.mem_cons.mp hb with rfl | hmem
        · exact ⟨a, List.mem_cons_self a as, hfa⟩
        · obtain ⟨a2, ha2, hfa2⟩ := ih bs0 hrest b hmem
          exact ⟨a2, List.mem_cons_of_mem a ha2, hfa2⟩

theorem change_owner_entry_ok (m : OwnersMap) (a p : String)
    (co : ChangeOwners) (h : change_owner_entry m a = Except.ok (p, co)) :
    a = p ∧ get_all_owners m p = Except.ok co.owners ∧
      get_closest_owners m p = Except.ok co.closest_owners := by
  unfold change_owner_entry at h
  cases hall : get_all_owners m a with
  | error e => rw [hall] at h; cases h
  | ok os =>
    rw [hall] at h
    cases hcl : get_closest_owners m a with
    | error e => rw [hcl] at h; cases h
    | ok cs =>
      rw [hcl] at h
      injection h with h1
      rw [Prod.mk.injEq] at h1
      obtain ⟨hap, hco⟩ := h1
      subst hap
      subst hco
      exact ⟨rfl, hall, hcl⟩

theorem get_change_owners_map_ok_mem (m : OwnersMap) (paths : List String)
    (com : List (String × ChangeOwners))
    (h : get_change_owners_map m paths = Except.ok com) :
    ∀ p co, (p, co) ∈ com →
      get_all_owners m p = Except.ok co.owners ∧
      get_closest_owners m p = Except.ok co.closest_owners := by
  unfold get_change_owners_map at h
  cases hm : mapExc (change_owner_entry m) paths with
  | error e => rw [hm] at h; cases h
  | ok l =>
    rw [hm] at h
    injection h with h1
    subst h1
    intro p co hpc
    obtain ⟨a, _, hfa⟩ := mapExc_ok_mem (change_owner_entry m) paths l hm
      (p, co) hpc
    obtain ⟨hap, h2, h3⟩ := change_owner_entry_ok m a p co hfa
    exact ⟨h2, h3⟩

theorem com_entry_unique (m : OwnersMap) (paths : List String)
    (com : List (String × ChangeOwners))
    (h : get_change_owners_map m paths = Except.ok com) :
    ∀ p co1 co2, (p, co1) ∈ com → (p, co2) ∈ com → co1 = co2 := by
  intro p co1 co2 h1 h2
  obtain ⟨ha1, hc1⟩ := get_change_owners_map_ok_mem m paths com h p co1 h1
  obtain ⟨ha2, hc2⟩ := get_change_owners_map_ok_mem m paths com h p co2 h2
  rw [ha1] at ha2
  rw [hc1] at hc2
  cases co1
  cases co2
  simp only [ChangeOwners.mk.injEq]
  exact ⟨Except.ok.inj ha2, Except.ok.inj hc2⟩

theorem find?_of_nodup_keys :
    ∀ (l : Report) (kv : String × String), (l.map Prod.fst).Nodup → kv ∈ l →
      l.find? (fun kv2 => kv2.1 == kv.1) = some kv := by
  intro l
  induction l with
  | nil => intro kv _ h; cases h
  | cons hd tl ih =>
    intro kv hnd hm
    rw [List.map_cons, List.nodup_cons] at hnd
    rcases List.mem_cons.mp hm with rfl | hmem
    · exact List.find?_cons_of_pos tl (beq_self_eq_true kv.1)
    · have hne : (hd.1 == kv.1) = false := by
        rw [beq_eq_false_iff_ne]
        intro he
        apply hnd.1
        rw [he]
        exact List.mem_map_of_mem Prod.fst hmem
      rw [List.find?_cons_of_neg tl (by rw [hne]; exact Bool.false_ne_true)]
      exact ih kv hnd.2 hmem

theorem py_dict_eq_of_perm (r1 r2 : Report) (hperm : r1.Perm r2)
    (hnd : (r1.map Prod.fst).Nodup) : py_dict_eq r1 r2 = true := by
  unfold py_dict_eq
  rw [Bool.and_eq_true]
  constructor
  · rw [beq_iff_eq]
    exact hperm.length_eq
  · rw [List.all_eq_true]
    intro kv hkv
    have hnd2 : (r2.map Prod.fst).Nodup := ((hperm.map Prod.fst).nodup_iff).mp hnd
    have hm2 : kv ∈ r2 := hperm.mem_iff.mp hkv
    rw [find?_of_nodup_keys r2 kv hnd2 hm2]
    exact beq_self_eq_true kv.2

theorem get_owners_map_aux_skip (item : TreeItem)
    (es : List (String × List String)) (hname : item.name = "OWNERS")
    (htyp : item.typ = "blob") (hcontent : item.content = some (YDoc.ymap es))
    (hmissing : es.find? (fun kv => kv.1 == "approvers") = none) :
    ∀ (pre post : List TreeItem) (acc : OwnersMap),
    get_owners_map_aux acc (pre ++ item :: post) =
      get_owners_map_aux acc (pre ++ post) := by
  intro pre
  induction pre with
  | nil =>
    intro post acc
    simp only [List.nil_append]
    conv_lhs => rw [get_owners_map_aux]
    rw [hname, htyp, hcontent]
    simp [hmissing]
  | cons it pre ih =>
    intro post acc
    simp only [List.cons_append]
    conv_lhs => rw [get_owners_map_aux]
    conv_rhs => rw [get_owners_map_aux]
    by_cases h1 : (it.name != "OWNERS") = true
    · rw [if_pos h1, if_pos h1]
      exact ih post acc
    · rw [if_neg h1, if_neg h1]
      by_cases h2 : (it.typ != "blob") = true
      · rw [if_pos h2, if_pos h2]
        exact ih post acc
      · rw [if_neg h2, if_neg h2]
        cases hc : it.content with
        | none => rfl
        | some d =>
          cases d with
          | yother => rfl
          | ymap es2 =>
            dsimp only
            cases hf : es2.find? (fun kv => kv.1 == "approvers") with
            | none => exact ih post acc
            | some kv => exact ih post (dinsert acc (parentDir it.path) kv.2)

/-! ### Claims -/

/-- C1, counterexample.  The claim says that when ownership resolution fails
the outcome is a distinct "unevaluable" verdict and NO side-effect directive
is emitted regardless of label state.  On the code, with the approval label
present, resolution failure yields the ordinary not-approved status — the
very same value `get_approval_status` returns in an evaluable
unapproved/report-suppressed run — and `run` removes the label
(gitlab_owners.py lines 250-256), a side-effect directive. -/
theorem c1_unevaluable_counterexample :
    get_change_owners_map [("x", ["alice"])] ["y"] =
      Except.error PyError.ownerNotFoundError ∧
    (evaluate [("x", ["alice"])] ["y"] [] "bot" 0 ["approved"]).2 =
      [Directive.removeLabel] ∧
    (evaluate [("x", ["alice"])] ["y"] [] "bot" 0 ["approved"]).2 ≠ [] ∧
    get_approval_status [("x", ["alice"])] ["y"] [] "bot" 0 =
      get_approval_status exMap ["a/f"] [exComment] "bot" 0 := by
  decide

/-- C1, amended.  If ownership resolution fails for any changed path, the
status is `approved = false` with no report — the same value as the
not-approved/report-suppressed outcome, not a distinct verdict — and no
comment is posted nor label added, but if the approval label is currently
present it is removed (in a non-dry run). -/
theorem c1_unevaluable_amended (m : OwnersMap) (paths : List String)
    (comments : List Comment) (bot : String) (top : Int)
    (labels : List String) (e : PyError)
    (h : get_change_owners_map m paths = Except.error e) :
    evaluate m paths comments bot top labels =
      (ApprovalStatus.mk false none,
       if has_approval_label labels then [Directive.removeLabel] else []) := by
  unfold evaluate get_approval_status run_directives
  rw [h]
  cases hl : has_approval_label labels <;> simp

/-- C1 witness: the amended statement at a concrete failing input. -/
theorem c1_unevaluable_amended_witness :
    get_change_owners_map [("x", ["alice"])] ["y"] =
      Except.error PyError.ownerNotFoundError ∧
    evaluate [("x", ["alice"])] ["y"] [] "bot" 0 ["approved"] =
      (ApprovalStatus.mk false none, [Directive.removeLabel]) :=
  ⟨by decide, by
    have h := c1_unevaluable_amended [("x", ["alice"])] ["y"] [] "bot" 0
      ["approved"] PyError.ownerNotFoundError (by decide)
    rw [h]
    decide⟩

/-- C9: the evaluation is deterministic — two calls on identical inputs
(ownership index, changed paths, comments, bot identity, head-commit
timestamp, labels) produce identical statuses and directives.  In this
embedding `evaluate` is a pure function of exactly those inputs, so the
property holds definitionally. -/
theorem c9_evaluate_deterministic (m1 m2 : OwnersMap) (p1 p2 : List String)
    (c1 c2 : List Comment) (b1 b2 : String) (t1 t2 : Int)
    (g1 g2 : List String) (hm : m1 = m2) (hp : p1 = p2) (hc : c1 = c2)
    (hb : b1 = b2) (ht : t1 = t2) (hg : g1 = g2) :
    evaluate m1 p1 c1 b1 t1 g1 = evaluate m2 p2 c2 b2 t2 g2 := by
  subst hm; subst hp; subst hc; subst hb; subst ht; subst hg; rfl

/-- C9 witness: determinism at a concrete input on which the directive set
is empty (approved merge request already carrying the label). -/
theorem c9_evaluate_deterministic_witness :
    evaluate exMap ["a/f"] [Comment.mk "alice" "/lgtm" 5] "bot" 0
        ["approved"] =
      evaluate exMap ["a/f"] [Comment.mk "alice" "/lgtm" 5] "bot" 0
        ["approved"] ∧
    (evaluate exMap ["a/f"] [Comment.mk "alice" "/lgtm" 5] "bot" 0
        ["approved"]).2 = [] :=
  ⟨c9_evaluate_deterministic exMap exMap ["a/f"] ["a/f"]
      [Comment.mk "alice" "/lgtm" 5] [Comment.mk "alice" "/lgtm" 5]
      "bot" "bot" 0 0 ["approved"] ["approved"] rfl rfl rfl rfl rfl rfl,
    by decide⟩

/-- C2, counterexample.  The claim says reports with the same entries
serialize to byte-identical text regardless of construction order.  The code
serializes with `json.dumps(report, indent=4)` and no `sort_keys`
(gitlab_owners.py line 207), so two reports with exactly the same entries —
equal as dicts, and both produced by `get_approval_status` from the same
data with the changed paths listed in different orders — serialize to
different text. -/
theorem c2_serialization_counterexample :
    py_dict_eq exR1 exR2 = true ∧ exR1.Perm exR2 ∧
    json_dumps_indent4 exR1 ≠ json_dumps_indent4 exR2 ∧
    (get_approval_status exMap2 ["a/f", "b/f"] [] "bot" 0).report =
      some (markdown_json_report exR1) ∧
    (get_approval_status exMap2 ["b/f", "a/f"] [] "bot" 0).report =
      some (markdown_json_report exR2) := by
  decide

/-- C2, amended.  Serialization follows insertion order, so two reports with
identical entries inserted in different orders may serialize differently;
what IS insensitive to construction order is the dict equality
`body == report` that the code uses to suppress duplicate comments: two
reports holding exactly the same path-to-message entries (in any order)
compare equal in both directions. -/
theorem c2_report_equality_order_insensitive (r1 r2 : Report)
    (hperm : r1.Perm r2) (hnd : (r1.map Prod.fst).Nodup) :
    py_dict_eq r1 r2 = true ∧ py_dict_eq r2 r1 = true := by
  have hnd2 : (r2.map Prod.fst).Nodup := ((hperm.map Prod.fst).nodup_iff).mp hnd
  exact ⟨py_dict_eq_of_perm r1 r2 hperm hnd,
    py_dict_eq_of_perm r2 r1 hperm.symm hnd2⟩

/-- C2 witness: the amended statement at the two concrete permuted
reports. -/
theorem c2_report_equality_order_insensitive_witness :
    exR1.Perm exR2 ∧ (exR1.map Prod.fst).Nodup ∧
    (py_dict_eq exR1 exR2 = true ∧ py_dict_eq exR2 exR1 = true) :=
  ⟨by decide, by decide,
    c2_report_equality_order_insensitive exR1 exR2 (by decide) (by decide)⟩

/-- C3, counterexample.  The claim says every structurally malformed
ownership declaration is skipped and index building never fails.  But
`_get_owners_map` catches only `KeyError` (gitlab_owners.py line 81): an
OWNERS file parsing to a non-mapping document raises `TypeError`, and an
unparseable one raises `yaml.YAMLError`, both uncaught — the index build
aborts instead of continuing past the malformed declaration. -/
theorem c3_malformed_declaration_counterexample :
    get_owners_map [exListItem, exGoodItem] =
      Except.error PyError.typeError ∧
    get_owners_map [exUnparseableItem, exGoodItem] =
      Except.error PyError.yamlError := by
  decide

/-- C3, amended.  Only a declaration whose document is a mapping lacking the
`approvers` key raises the caught `KeyError`: such a declaration is skipped
(and logged) and index building continues unchanged; other malformations
(non-mapping document, unparseable YAML) abort the build. -/
theorem c3_missing_approvers_skipped (pre post : List TreeItem)
    (item : TreeItem) (es : List (String × List String))
    (hname : item.name = "OWNERS") (htyp : item.typ = "blob")
    (hcontent : item.content = some (YDoc.ymap es))
    (hmissing : es.find? (fun kv => kv.1 == "approvers") = none) :
    get_owners_map (pre ++ item :: post) = get_owners_map (pre ++ post) := by
  unfold get_owners_map
  exact get_owners_map_aux_skip item es hname htyp hcontent hmissing pre post []

/-- C3 witness: the amended statement at a concrete tree in which the
`approvers`-less declaration is skipped and the build succeeds. -/
theorem c3_missing_approvers_skipped_witness :
    exNoApproversItem.name = "OWNERS" ∧
    get_owners_map [exNoApproversItem, exGoodItem] =
      get_owners_map [exGoodItem] ∧
    get_owners_map [exGoodItem] = Except.ok [("d", ["alice"])] :=
  ⟨rfl,
    c3_missing_approvers_skipped [] [exGoodItem] exNoApproversItem
      [("owners", ["bob"])] rfl rfl rfl (by decide),
    by decide⟩

/-- C4: a `/lgtm` vote whose timestamp is strictly before the head-commit
timestamp is excluded from the qualifying voter set (`get_lgtms`) and can
never contribute to approving any path: removing such a comment from the
comment stream leaves both the voter set and the whole approval status
unchanged, even when the voter is a valid owner of a changed path. -/
theorem c4_stale_vote_excluded (m : OwnersMap) (paths : List String)
    (l1 l2 : List Comment) (c : Comment) (bot : String) (top : Int)
    (hstale : c.created_at < top) :
    get_lgtms (l1 ++ c :: l2) top = get_lgtms (l1 ++ l2) top ∧
    get_approval_status m paths (l1 ++ c :: l2) bot top =
      get_approval_status m paths (l1 ++ l2) bot top := by
  have hd : decide (c.created_at < top) = true := decide_eq_true hstale
  have hfilter :
      (fun cm => cm.body == "/lgtm" && !(decide (cm.created_at < top))) c
        = false := by
    simp [hd]
  have hl : get_lgtms (l1 ++ c :: l2) top = get_lgtms (l1 ++ l2) top := by
    unfold get_lgtms
    rw [filter_insert_false _ l1 l2 c hfilter]
  have hrac : ∀ rep, report_already_commented (l1 ++ c :: l2) bot top rep =
      report_already_commented (l1 ++ l2) bot top rep := by
    intro rep
    unfold report_already_commented
    apply any_insert_false
    simp [hd]
  refine ⟨hl, ?_⟩
  unfold get_approval_status
  cases hcm : get_change_owners_map m paths with
  | error e => rfl
  | ok com =>
    dsimp only
    unfold approval_of_report
    rw [hl, hrac]

/-- C4 witness: a stale vote by alice — a valid owner of the changed path —
changes nothing at a concrete input. -/
theorem c4_stale_vote_excluded_witness :
    (Comment.mk "alice" "/lgtm" (-1)).created_at < 0 ∧
    (get_lgtms [Comment.mk "alice" "/lgtm" (-1)] 0 = get_lgtms [] 0 ∧
     get_approval_status exMap ["a/f"] [Comment.mk "alice" "/lgtm" (-1)]
        "bot" 0 =
       get_approval_status exMap ["a/f"] [] "bot" 0) :=
  ⟨by decide,
    c4_stale_vote_excluded exMap ["a/f"] [] []
      (Comment.mk "alice" "/lgtm" (-1)) "bot" 0 (by decide)⟩

/-- C5, counterexample.  The claim says `allOwners(path)` returns the union
of the owner sets of every prefix-matching key, failing only when no key
matches.  With an index whose only matching key carries an empty approvers
list (`approvers: []` is a well-formed declaration and is stored), the union
is empty and `get_all_owners` raises `KeyError` instead of returning the
empty union — even though a key does match, and `get_closest_owners`
succeeds on the very same input. -/
theorem c5_all_owners_counterexample :
    pyStartsWith "a/f" "a" = true ∧
    get_all_owners [("a", [])] "a/f" = Except.error PyError.keyError ∧
    get_all_owners [("a", [])] "a/f" ≠ Except.ok [] ∧
    get_closest_owners [("a", [])] "a/f" = Except.ok [] := by
  decide

/-- C5, amended.  `get_all_owners` returns exactly the (sorted, dedup'd)
union of the owner sets of the prefix-matching keys whenever that union is
non-empty, and fails with `KeyError` when it is empty; when NO key is a
textual prefix of the path, both `get_all_owners` and `get_closest_owners`
fail, with the same error kind (`KeyError`). -/
theorem c5_all_owners_spec (m : OwnersMap) (path : String) :
    (matched_owners m path ≠ [] →
      ∃ res, get_all_owners m path = Except.ok res ∧
        ∀ x, x ∈ res ↔ ∃ kv ∈ m, pyStartsWith path kv.1 = true ∧ x ∈ kv.2) ∧
    ((∀ kv ∈ m, pyStartsWith path kv.1 = false) →
      get_all_owners m path = Except.error PyError.keyError ∧
      get_closest_owners m path = Except.error PyError.keyError) := by
  constructor
  · intro hne
    refine ⟨sortedSet (matched_owners m path), ?_, ?_⟩
    · unfold get_all_owners
      rw [if_neg ?hc]
      case hc =>
        rw [List.isEmpty_iff]
        exact hne
    · intro x
      rw [sortedSet_mem, matched_owners_mem]
  · intro hnone
    have hmp : matchedPairs m path = [] := by
      unfold matchedPairs
      rw [List.filter_eq_nil_iff]
      intro kv hkv
      rw [hnone kv hkv]
      exact Bool.false_ne_true
    have hmo : matched_owners m path = [] := by
      unfold matched_owners
      rw [hmp]
      rfl
    constructor
    · unfold get_all_owners
      rw [hmo]
      rfl
    · unfold get_closest_owners
      rw [hmp]

/-- C5 witness: the amended statement at two concrete inputs, one matching
(union returned) and one with no matching key (both queries fail with
`KeyError`). -/
theorem c5_all_owners_spec_witness :
    (matched_owners exMap2 "a/f" ≠ [] ∧
      ∃ res, get_all_owners exMap2 "a/f" = Except.ok res ∧
        ∀ x, x ∈ res ↔
          ∃ kv ∈ exMap2, pyStartsWith "a/f" kv.1 = true ∧ x ∈ kv.2) ∧
    ((∀ kv ∈ exMap2, pyStartsWith "zzz" kv.1 = false) ∧
      get_all_owners exMap2 "zzz" = Except.error PyError.keyError ∧
      get_closest_owners exMap2 "zzz" = Except.error PyError.keyError) :=
  ⟨⟨by decide, (c5_all_owners_spec exMap2 "a/f").1 (by decide)⟩,
    ⟨by decide, (c5_all_owners_spec exMap2 "zzz").2 (by decide)⟩⟩

/-- C6: when `get_closest_owners` succeeds, its result is the sorted,
duplicate-free owner set of a prefix-matching key of maximal string length
among all matches; `evaluate` being a pure function of its inputs, the
choice among tied keys is fixed within a process (Python `max` keeps the
first maximum in dict iteration order). -/
theorem c6_closest_owners_longest (m : OwnersMap) (path : String)
    (res : List String) (h : get_closest_owners m path = Except.ok res) :
    ∃ kv, kv ∈ m ∧ pyStartsWith path kv.1 = true ∧ res = sortedSet kv.2 ∧
      ∀ kv2 ∈ m, pyStartsWith path kv2.1 = true →
        kv2.1.length ≤ kv.1.length := by
  obtain ⟨kv, hkv, hres, hmax⟩ := get_closest_owners_ok m path res h
  obtain ⟨hm, hp⟩ := List.mem_filter.mp hkv
  refine ⟨kv, hm, hp, hres, ?_⟩
  intro kv2 hkv2 hp2
  exact hmax kv2 (List.mem_filter.mpr ⟨hkv2, hp2⟩)

/-- C6 witness: on a two-entry index both of whose keys match, the longer
key `a/b` wins. -/
theorem c6_closest_owners_longest_witness :
    get_closest_owners [("a", ["alice"]), ("a/b", ["bob", "carol"])]
        "a/b/f" = Except.ok ["bob", "carol"] ∧
    ∃ kv, kv ∈ [("a", ["alice"]), ("a/b", ["bob", "carol"])] ∧
      pyStartsWith "a/b/f" kv.1 = true ∧
      ["bob", "carol"] = sortedSet kv.2 ∧
      ∀ kv2 ∈ [("a", ["alice"]), ("a/b", ["bob", "carol"])],
        pyStartsWith "a/b/f" kv2.1 = true → kv2.1.length ≤ kv.1.length :=
  ⟨by decide,
    c6_closest_owners_longest [("a", ["alice"]), ("a/b", ["bob", "carol"])]
      "a/b/f" ["bob", "carol"] (by decide)⟩

/-- C10 (implicit): when both queries succeed on the same path, the
closest-owners result is a subset of the all-owners result, and both
results are sorted in code-point order and duplicate-free. -/
theorem c10_closest_subset_all (m : OwnersMap) (path : String)
    (allRes closeRes : List String)
    (hall : get_all_owners m path = Except.ok allRes)
    (hclose : get_closest_owners m path = Except.ok closeRes) :
    (∀ x ∈ closeRes, x ∈ allRes) ∧
    List.Sorted pyLeRel allRes ∧ allRes.Nodup ∧
    List.Sorted pyLeRel closeRes ∧ closeRes.Nodup := by
  have hallv : allRes = sortedSet (matched_owners m path) :=
    get_all_owners_ok m path allRes hall
  obtain ⟨kv, hkv, hres, hmax⟩ := get_closest_owners_ok m path closeRes hclose
  obtain ⟨hm, hp⟩ := List.mem_filter.mp hkv
  refine ⟨?_, ?_, ?_, ?_, ?_⟩
  · intro x hx
    rw [hres, sortedSet_mem] at hx
    rw [hallv, sortedSet_mem, matched_owners_mem]
    exact ⟨kv, hm, hp, hx⟩
  · rw [hallv]; exact sortedSet_sorted _
  · rw [hallv]; exact sortedSet_nodup _
  · rw [hres]; exact sortedSet_sorted _
  · rw [hres]; exact sortedSet_nodup _

/-- C10 witness: the statement at a concrete two-level index. -/
theorem c10_closest_subset_all_witness :
    get_all_owners [("a", ["bob", "alice"]), ("a/b", ["bob"])] "a/b/f" =
      Except.ok ["alice", "bob"] ∧
    get_closest_owners [("a", ["bob", "alice"]), ("a/b", ["bob"])] "a/b/f" =
      Except.ok ["bob"] ∧
    ((∀ x ∈ (["bob"] : List String), x ∈ (["alice", "bob"] : List String)) ∧
      List.Sorted pyLeRel ["alice", "bob"] ∧
      (["alice", "bob"] : List String).Nodup ∧
      List.Sorted pyLeRel ["bob"] ∧ (["bob"] : List String).Nodup) :=
  ⟨by decide, by decide,
    c10_closest_subset_all [("a", ["bob", "alice"]), ("a/b", ["bob"])]
      "a/b/f" ["alice", "bob"] ["bob"] (by decide) (by decide)⟩

/-- C7: for every changed path that resolves successfully, the path counts
as approved (contributes no report entry) iff its full owners set has
non-empty intersection with the qualifying voter set, and the overall
verdict is approved iff the report of unapproved paths is empty. -/
theorem c7_approved_iff_owner_voted (m : OwnersMap) (paths : List String)
    (comments : List Comment) (bot : String) (top : Int)
    (com : List (String × ChangeOwners))
    (hcom : get_change_owners_map m paths = Except.ok com) :
    ((get_approval_status m paths comments bot top).approved = true ↔
      build_report com (get_lgtms comments top) = []) ∧
    (∀ p co, (p, co) ∈ com →
      ((∃ o ∈ co.owners, o ∈ get_lgtms comments top) ↔
        report_has_path (build_report com (get_lgtms comments top)) p
          = false)) := by
  have hca : ∀ co : ChangeOwners,
      change_approved co (get_lgtms comments top) = true ↔
        ∃ o ∈ co.owners, o ∈ get_lgtms comments top := by
    intro co
    unfold change_approved
    simp [List.any_eq_true]
  have hmem : ∀ p, report_has_path
      (build_report com (get_lgtms comments top)) p = true ↔
      ∃ co2, (p, co2) ∈ com ∧
        change_approved co2 (get_lgtms comments top) = false := by
    intro p
    unfold build_report
    rw [build_report_foldl_has_path]
    simp [report_has_path]
  constructor
  · unfold get_approval_status
    rw [hcom]
    dsimp only
    unfold approval_of_report
    by_cases hrep : (build_report com (get_lgtms comments top)).isEmpty = true
    · rw [if_pos hrep]
      constructor
      · intro _
        exact List.isEmpty_iff.mp hrep
      · intro _
        rfl
    · rw [if_neg hrep]
      by_cases hrac : report_already_commented comments bot top
          (build_report com (get_lgtms comments top)) = true
      · rw [if_pos hrac]
        constructor
        · intro hcontra
          cases hcontra
        · intro heq
          exact absurd (by rw [heq]; rfl) hrep
      · rw [if_neg hrac]
        constructor
        · intro hcontra
          cases hcontra
        · intro heq
          exact absurd (by rw [heq]; rfl) hrep
  · intro p co hpc
    have hbool : change_approved co (get_lgtms comments top) = true ↔
        report_has_path (build_report com (get_lgtms comments top)) p
          = false := by
      constructor
      · intro happ
        cases hrp : report_has_path
            (build_report com (get_lgtms comments top)) p
        · rfl
        · exfalso
          obtain ⟨co2, hco2, hap2⟩ := (hmem p).mp hrp
          have hcc : co2 = co := com_entry_unique m paths com hcom p co2 co
            hco2 hpc
          rw [hcc, happ] at hap2
          cases hap2
      · intro hrp
        cases hcb : change_approved co (get_lgtms comments top)
        · exfalso
          have hrt : report_has_path
              (build_report com (get_lgtms comments top)) p = true :=
            (hmem p).mpr ⟨co, hpc, hcb⟩
          rw [hrp] at hrt
          cases hrt
        · rfl
    exact (hca co).symm.trans hbool

/-- C7 witness: with alice voting after the head commit on a path she owns,
the verdict is approved and the report is empty. -/
theorem c7_approved_iff_owner_voted_witness :
    get_change_owners_map exMap ["a/f"] =
      Except.ok [("a/f", ChangeOwners.mk ["alice"] ["alice"])] ∧
    (((get_approval_status exMap ["a/f"] [Comment.mk "alice" "/lgtm" 5]
          "bot" 0).approved = true ↔
        build_report [("a/f", ChangeOwners.mk ["alice"] ["alice"])]
          (get_lgtms [Comment.mk "alice" "/lgtm" 5] 0) = []) ∧
      ∀ p co, (p, co) ∈ [("a/f", ChangeOwners.mk ["alice"] ["alice"])] →
        ((∃ o ∈ co.owners, o ∈ get_lgtms [Comment.mk "alice" "/lgtm" 5] 0) ↔
          report_has_path
            (build_report [("a/f", ChangeOwners.mk ["alice"] ["alice"])]
              (get_lgtms [Comment.mk "alice" "/lgtm" 5] 0)) p = false)) :=
  ⟨by decide,
    c7_approved_iff_owner_voted exMap ["a/f"] [Comment.mk "alice" "/lgtm" 5]
      "bot" 0 [("a/f", ChangeOwners.mk ["alice"] ["alice"])] (by decide)⟩

/-- C8: when the verdict is not approved and some qualifying prior bot
comment (bot-authored, not older than the head commit) decodes to a report
equal to the newly computed one, the status carries no report and `run`
posts no comment directive; and a qualifying prior comment whose body fails
to decode is simply skipped by the comment scan — it never changes the
outcome and never causes evaluation to fail. -/
theorem c8_duplicate_report_suppressed (m : OwnersMap) (paths : List String)
    (comments : List Comment) (bot : String) (top : Int)
    (com : List (String × ChangeOwners))
    (hcom : get_change_owners_map m paths = Except.ok com)
    (hne : build_report com (get_lgtms comments top) ≠ [])
    (hmatch : ∃ c ∈ comments, c.username = bot ∧ ¬(c.created_at < top) ∧
      ∃ b, decodeBody c.body = some b ∧
        py_dict_eq b (build_report com (get_lgtms comments top)) = true) :
    (get_approval_status m paths comments bot top =
        ApprovalStatus.mk false none ∧
      ∀ (hasLabel : Bool) (s : String),
        Directive.postComment s ∉
          run_directives (get_approval_status m paths comments bot top)
            hasLabel) ∧
    (∀ (l1 l2 : List Comment) (c : Comment) (rep : Report),
      decodeBody c.body = none →
      report_already_commented (l1 ++ c :: l2) bot top rep =
        report_already_commented (l1 ++ l2) bot top rep) := by
  have hrac : report_already_commented comments bot top
      (build_report com (get_lgtms comments top)) = true := by
    obtain ⟨c, hc, hu, ht, b, hb, hpe⟩ := hmatch
    unfold report_already_commented
    rw [List.any_eq_true]
    refine ⟨c, hc, ?_⟩
    have hdf : decide (c.created_at < top) = false := decide_eq_false ht
    rw [hb]
    simp [hu, hdf, hpe]
  have hstat : get_approval_status m paths comments bot top =
      ApprovalStatus.mk false none := by
    unfold get_approval_status
    rw [hcom]
    dsimp only
    unfold approval_of_report
    rw [if_neg ?hni, if_pos hrac]
    case hni =>
      rw [List.isEmpty_iff]
      exact hne
  refine ⟨⟨hstat, ?_⟩, ?_⟩
  · intro hasLabel s
    rw [hstat]
    unfold run_directives
    cases hasLabel <;> simp
  · intro l1 l2 c rep hdec
    unfold report_already_commented
    apply any_insert_false
    rw [hdec]
    simp

/-- C8 witness: with a prior bot comment whose body carries exactly the
computed report, no comment directive is produced at a concrete input. -/
theorem c8_duplicate_report_suppressed_witness :
    (get_approval_status exMap ["a/f"] [exComment] "bot" 0 =
        ApprovalStatus.mk false none ∧
      ∀ (hasLabel : Bool) (s : String),
        Directive.postComment s ∉
          run_directives
            (get_approval_status exMap ["a/f"] [exComment] "bot" 0)
            hasLabel) ∧
    (∀ (l1 l2 : List Comment) (c : Comment) (rep : Report),
      decodeBody c.body = none →
      report_already_commented (l1 ++ c :: l2) "bot" 0 rep =
        report_already_commented (l1 ++ l2) "bot" 0 rep) :=
  c8_duplicate_report_suppressed exMap ["a/f"] [exComment] "bot" 0
    [("a/f", ChangeOwners.mk ["alice"] ["alice"])] (by decide) (by decide)
    ⟨exComment, by decide, rfl, by decide, exReport, by decide, by decide⟩
